import Mathlib

/-!
Shallow embedding of the solana-retro cartridge storage clients
(TypeScript SDK, compiled SDK, and web front-end), together with theorems
settling the specification claims about chunking, decoding, publishing,
fetching, retrying and rate limiting.

Bytes are modelled as `List Nat` (each element a byte value 0-255; the
byte range is irrelevant to the claims proved here).  Node `Buffer` reads
at a fixed offset throw a `RangeError` when the read extends past the end
of the buffer; this is modelled by `Option` (`none` = thrown).
`Buffer.subarray` clamps and never throws, so it is modelled by a total
function.
-/

namespace SolanaRetro

abbrev Bytes := List Nat

/-- Little-endian value of a byte list (first element is least significant). -/
def leVal : Bytes → Nat
  | [] => 0
  | b :: rest => b + 256 * leVal rest

/-- `buffer.readUIntLE(off, n)`-style read: `n` bytes at `off`, little-endian;
    `none` models the `RangeError` Node throws when `off + n` exceeds the length. -/
def readLE (b : Bytes) (off n : Nat) : Option Nat :=
  if off + n ≤ b.length then some (leVal ((b.drop off).take n)) else none

/-- `buffer.subarray(off, stop)`: clamping slice, never throws. -/
def subarray (b : Bytes) (off stop : Nat) : Bytes :=
  (b.drop off).take (stop - off)

/-! ### `sdk/src/utils.ts` -/

/-- `splitIntoChunks(data, chunkSize)` from `sdk/src/utils.ts`: the loop
    `for (i = 0; i < data.length; i += chunkSize) push(data.slice(i, min(i+chunkSize, len)))`.
    (For `chunkSize = 0` the source loop does not terminate; the model returns `[]`
    there and is only used with a positive chunk size, as the claims assume.) -/
def splitIntoChunks (data : Bytes) (chunkSize : Nat) : List Bytes :=
  if h : data = [] ∨ chunkSize = 0 then []
  else data.take chunkSize :: splitIntoChunks (data.drop chunkSize) chunkSize
termination_by data.length
decreasing_by
  simp only [not_or] at h
  have h1 : data ≠ [] := h.1
  have h2 : chunkSize ≠ 0 := h.2
  have : 0 < data.length := List.length_pos.mpr h1
  simp [List.length_drop]
  omega

/-- `concatBytes(...arrays)` from `sdk/src/utils.ts`: allocates the total length
    and copies each array in order, i.e. list concatenation. -/
def concatBytes (arrays : List Bytes) : Bytes :=
  arrays.flatten

/-- `verifySHA256(data, expectedHash)` from `sdk/src/utils.ts`: hashes the data and
    compares length and every byte with the expected hash.  The SHA-256 primitive
    itself is the platform crypto library, so the embedding is parametric in the
    hash function. -/
def verifySHA256 (hash : Bytes → Bytes) (data : Bytes) (expected : Bytes) : Bool :=
  hash data == expected

/-- `batch(array, size)` from `sdk/src/utils.ts`: same slicing loop as
    `splitIntoChunks`, over an arbitrary element type. -/
def batchList {α : Type} (array : List α) (size : Nat) : List (List α) :=
  if h : array.length = 0 ∨ size = 0 then []
  else array.take size :: batchList (array.drop size) size
termination_by array.length
decreasing_by
  simp only [not_or] at h
  simp [List.length_drop]
  omega

/-! ### Constants (`sdk/src/constants.ts`, compiled `constants.js`, web client) -/

/-- `MAX_CARTRIDGE_SIZE` (6 MiB), identical in every stratum. -/
def MAX_CARTRIDGE_SIZE : Nat := 6 * 1024 * 1024

/-- `MAX_METADATA_LEN`, identical in every stratum. -/
def MAX_METADATA_LEN : Nat := 256

/-- `ENTRIES_PER_PAGE` in `sdk/src/constants.ts` (TypeScript source). -/
def ENTRIES_PER_PAGE_sdk : Nat := 16

/-- `ENTRIES_PER_PAGE` in the compiled SDK `constants.js`. -/
def ENTRIES_PER_PAGE_sdkDist : Nat := 32

/-- `ENTRIES_PER_PAGE` in `web/src/solana-rpc.js`. -/
def ENTRIES_PER_PAGE_webRpc : Nat := 32

/-- `ENTRIES_PER_PAGE` in `web/src/composables/useSolanaCatalog.js`. -/
def ENTRIES_PER_PAGE_catalog : Nat := 16

/-- `DISCRIMINATORS.cartridgeManifest` from `sdk/src/constants.ts` (from the IDL). -/
def DISC_cartridgeManifest : Bytes := [48, 216, 242, 54, 127, 213, 134, 79]

/-! ### Account decoders (`sdk/src/decoder.ts`, `web/src/solana-rpc.js`,
    `web/src/composables/useSolanaCatalog.js`)

Field offsets follow the source exactly.  None of the decoders reads or
compares the 8-byte discriminator: they all start with `offset = 8  // Skip
discriminator`. -/

/-- Decoded `CartridgeManifest` record (`sdk/src/types`). -/
structure CartridgeManifest where
  cartridgeId : Bytes
  zipSize : Nat
  chunkSize : Nat
  numChunks : Nat
  sha256 : Bytes
  finalized : Bool
  createdSlot : Nat
  publisher : Bytes
  metadataLen : Nat
  bump : Nat
  metadata : Bytes
  deriving Repr, DecidableEq

/-- `decodeCartridgeManifest` from `sdk/src/decoder.ts`: sequential reads from
    offset 8 (discriminator skipped, never compared); `metadata` is sliced with
    `Math.min(metadataLen, MAX_METADATA_LEN)` rather than rejected when too long. -/
def decodeCartridgeManifest (b : Bytes) : Option CartridgeManifest := do
  let zipSize ← readLE b 40 8
  let chunkSize ← readLE b 48 4
  let numChunks ← readLE b 52 4
  let finalizedByte ← readLE b 88 1
  let createdSlot ← readLE b 89 8
  let metadataLen ← readLE b 129 2
  let bump ← readLE b 131 1
  some {
    cartridgeId := subarray b 8 40
    zipSize := zipSize
    chunkSize := chunkSize
    numChunks := numChunks
    sha256 := subarray b 56 88
    finalized := finalizedByte ≠ 0
    createdSlot := createdSlot
    publisher := subarray b 97 129
    metadataLen := metadataLen
    bump := bump
    metadata := subarray b 132 (132 + min metadataLen MAX_METADATA_LEN)
  }

/-- Decoded `CartridgeChunk` record (`sdk/src/types`). -/
structure CartridgeChunk where
  cartridgeId : Bytes
  chunkIndex : Nat
  dataLen : Nat
  written : Bool
  bump : Nat
  data : Bytes
  deriving Repr, DecidableEq

/-- `decodeCartridgeChunk` from `sdk/src/decoder.ts`: reads the length-prefixed
    data vector and slices `min(vecLen, dataLen)` bytes; no discriminator check,
    no `data_len ≤ chunk_size` check. -/
def decodeCartridgeChunk (b : Bytes) : Option CartridgeChunk := do
  let chunkIndex ← readLE b 40 4
  let dataLen ← readLE b 44 4
  let writtenByte ← readLE b 48 1
  let bump ← readLE b 49 1
  let vecLen ← readLE b 50 4
  some {
    cartridgeId := subarray b 8 40
    chunkIndex := chunkIndex
    dataLen := dataLen
    written := writtenByte ≠ 0
    bump := bump
    data := subarray b 54 (54 + min vecLen dataLen)
  }

/-- `decodeCartridgeChunk` from `web/src/solana-rpc.js` (also the version in
    `useSolanaCartridge.js`): returns just the data bytes,
    `subarray(offset, offset + Math.min(vecLen, dataLen))`. -/
def decodeCartridgeChunkWeb (b : Bytes) : Option Bytes := do
  let dataLen ← readLE b 44 4
  let vecLen ← readLE b 50 4
  some (subarray b 54 (54 + min vecLen dataLen))

/-- Decoded catalog entry (identical layout in every stratum; 120 bytes). -/
structure CatalogEntry where
  cartridgeId : Bytes
  manifestPubkey : Bytes
  zipSize : Nat
  sha256 : Bytes
  createdSlot : Nat
  flags : Nat
  deriving Repr, DecidableEq

/-- `decodeCatalogEntry(buffer, offset)`: shared by `sdk/src/decoder.ts`,
    `web/src/solana-rpc.js` and `useSolanaCatalog.js`. -/
def decodeCatalogEntry (b : Bytes) (off : Nat) : Option CatalogEntry := do
  let zipSize ← readLE b (off + 64) 8
  let createdSlot ← readLE b (off + 104) 8
  let flags ← readLE b (off + 112) 1
  some {
    cartridgeId := subarray b off (off + 32)
    manifestPubkey := subarray b (off + 32) (off + 64)
    zipSize := zipSize
    sha256 := subarray b (off + 72) (off + 104)
    createdSlot := createdSlot
    flags := flags
  }

/-- Decoded `CatalogPage` record. -/
structure CatalogPage where
  pageIndex : Nat
  entryCount : Nat
  bump : Nat
  entries : List CatalogEntry
  deriving Repr, DecidableEq

/-- `CATALOG_ENTRY_SIZE = 120` (all strata). -/
def CATALOG_ENTRY_SIZE : Nat := 120

/-- The entry-decoding loop `for (i = 0; i < n; i++) entries.push(decodeCatalogEntry(...))`
    shared by all `decodeCatalogPage` variants. -/
def decodeEntries (b : Bytes) : Nat → Option (List CatalogEntry)
  | 0 => some []
  | n + 1 => do
      let firsts ← decodeEntries b n
      let e ← decodeCatalogEntry b (24 + n * CATALOG_ENTRY_SIZE)
      some (firsts ++ [e])

/-- `decodeCatalogPage` shared shape: entries start at offset 24 and the loop runs
    `for i in 0 ..< min(entryCount, cap)`.  The page capacity `cap` is the only
    difference between the strata: `ENTRIES_PER_PAGE_sdk`/`_catalog` use 16,
    `ENTRIES_PER_PAGE_sdkDist`/`_webRpc` use 32. -/
def decodeCatalogPage (cap : Nat) (b : Bytes) : Option CatalogPage := do
  let pageIndex ← readLE b 8 4
  let entryCount ← readLE b 12 4
  let bump ← readLE b 16 1
  let entries ← decodeEntries b (min entryCount cap)
  some {
    pageIndex := pageIndex
    entryCount := entryCount
    bump := bump
    entries := entries
  }

/-- `decodeCatalogPage` as in `web/src/solana-rpc.js` (capacity hard-coded 32). -/
def decodeCatalogPageWebRpc (b : Bytes) : Option CatalogPage :=
  decodeCatalogPage ENTRIES_PER_PAGE_webRpc b

/-- `decodeCatalogPage` as in `useSolanaCatalog.js` (capacity 16). -/
def decodeCatalogPageCatalog (b : Bytes) : Option CatalogPage :=
  decodeCatalogPage ENTRIES_PER_PAGE_catalog b

/-! ### `handle429Error` (`web/src/utils.js`)

A JavaScript source value is modelled by what the handler observes of it: its
raw truthiness (used by the guards `if (retryAfterHeader)` and
`if (data.retryAfter || data.retry_after)`) and its `parseInt`/regex-capture
result as an `Option Int` (`none` = `NaN`).  For the two headers the raw bit is
redundant — a raw-falsy header is the empty string, whose parse is `NaN` — so a
header is a single `Option Int` (`none` = header absent, empty, or
non-numeric).  For the JSON body the raw bit matters, because `retryAfter ||
retry_after` selects on the raw values before parsing (a raw-truthy string
`"0"` masks `retry_after` even though it parses to the falsy `0`), so each body
field is a raw-truthiness `Bool` (absent = falsy) plus its parsed value.
Assigning `NaN` is modelled by keeping the current value: both are falsy in
every later guard and both hit the final `isNaN`/falsy default, so the observable
behaviour is identical.  The two message regexes of the source are distinct —
`/retry[-\s]after[:\s]+(\d+)/i` and, only when the first capture was falsy,
`/retry[-\s]after[:\s]+(\d+)[\s]*second/i` — and may capture different first
matches, so they are independent candidates (their captures are digit strings,
hence in the source always nonnegative and never `NaN`; the model is parametric
over all integers, a superset). -/

/-- JavaScript truthiness of a (possibly absent) number: `0`, `NaN` and absence
    are falsy. -/
def truthy : Option Int → Bool
  | none => false
  | some v => v != 0

/-- One `if (!retryAfterSeconds) { if (guard) retryAfterSeconds = src }` stage;
    `src = none` covers both a failed guard and an assigned `NaN` (see above). -/
def assignIfFalsy (cur src : Option Int) : Option Int :=
  if truthy cur then cur
  else match src with
    | some v => some v
    | none => cur

/-- The body stage `if (data.retryAfter || data.retry_after)
    retryAfterSeconds = parseInt(data.retryAfter || data.retry_after)`:
    `rawA`/`rawB` are the raw truthiness of the two fields, `pA`/`pB` their
    parsed values.  `||` picks `retryAfter` whenever it is raw-truthy, else
    `retry_after`; the guard passes when either is raw-truthy. -/
def bodyCandidate (rawA : Bool) (pA : Option Int) (rawB : Bool) (pB : Option Int) :
    Option Int :=
  if rawA then pA else if rawB then pB else none

/-- The final `if (!retryAfterSeconds || isNaN(retryAfterSeconds)) retryAfterSeconds = 1`. -/
def finalizeDelay : Option Int → Int
  | none => 1
  | some v => if v = 0 then 1 else v

/-- `handle429Error` from `web/src/utils.js`: the sequence of assignments over
    the candidate sources, in source order.  `hdrResp` is the `Retry-After`
    header of the passed response, `hdrErr` the one on `error.response`,
    `rawA`/`pA` and `rawB`/`pB` the JSON body's `retryAfter` and `retry_after`
    fields (raw truthiness and parsed value), `msg1` the first
    `retry[- ]after[: ]N` match in the error text, `msg2` the first
    `retry[- ]after[: ]N seconds` match, and `msgJson` the
    `{"retryAfter": N}` match. -/
def handle429Delay (hdrResp hdrErr : Option Int) (rawA : Bool) (pA : Option Int)
    (rawB : Bool) (pB : Option Int) (msg1 msg2 msgJson : Option Int) : Int :=
  finalizeDelay
    ([hdrResp, hdrErr, bodyCandidate rawA pA rawB pB, msg1, msg2, msgJson].foldl
      assignIfFalsy none)

/-- `retryAfterUntil = Date.now() + retryAfterSeconds * 1000 + 100`. -/
def handle429Until (now : Int) (hdrResp hdrErr : Option Int) (rawA : Bool)
    (pA : Option Int) (rawB : Bool) (pB : Option Int)
    (msg1 msg2 msgJson : Option Int) : Int :=
  now + handle429Delay hdrResp hdrErr rawA pA rawB pB msg1 msg2 msgJson * 1000 + 100

/-- First candidate with a nonzero parsed value, defaulting to 1: the clean
    description of the selection the handler implements. -/
def firstNonzero : List (Option Int) → Int
  | [] => 1
  | c :: rest => if truthy c then c.getD 1 else firstNonzero rest

/-! ### Rate limiter (`createRateLimiter` in `web/src/utils.js`)

Timing model: calls are sequential; every `await setTimeout(ms)` advances the
clock by exactly `ms` and everything between sleeps takes zero time, so each
`Date.now()` in the source is a known function of the call's arrival time. -/

/-- Limiter state: recorded admission timestamps (oldest first) and the
    `retryAfterUntil` timestamp set by `handle429Error`. -/
structure RLState where
  ts : List Int
  rau : Int
  deriving Repr, DecidableEq

/-- The `while (timestamps.length > 0 && now - timestamps[0] >= windowMs) shift()` loop. -/
def dropOld (windowMs now : Int) : List Int → List Int
  | [] => []
  | t :: rest => if windowMs ≤ now - t then dropOld windowMs now rest else t :: rest

/-- The pruning half of `rateLimit()`: drop entries older than the window, and
    when the window is still full, wait `windowMs - (now - oldest) + 50` and
    prune again.  Returns the time after the waits and the pruned list. -/
def rlPrune (maxReq : Nat) (windowMs : Int) (ts : List Int) (t1 : Int) : Int × List Int :=
  if maxReq ≤ (dropOld windowMs t1 ts).length then
    match (dropOld windowMs t1 ts).head? with
    | none => (t1, dropOld windowMs t1 ts)
    | some oldest =>
      ((if 0 < windowMs - (t1 - oldest) + 50
          then t1 + (windowMs - (t1 - oldest) + 50) else t1),
       dropOld windowMs
         (if 0 < windowMs - (t1 - oldest) + 50
           then t1 + (windowMs - (t1 - oldest) + 50) else t1)
         (dropOld windowMs t1 ts))
  else (t1, dropOld windowMs t1 ts)

/-- The smoothing half of `rateLimit()`: when there was a previous request less
    than `minDelay` ago, sleep the difference and re-stamp the recorded
    timestamp (yielding `last + minDelay`). -/
def rlSmooth (minDelay t2 : Int) (ts2 : List Int) : Int :=
  match ts2.getLast? with
  | none => t2
  | some last => if t2 - last < minDelay then last + minDelay else t2

/-- One call to `rateLimit()`: wait out `retryAfterUntil`, prune the window,
    wait when the window is full (with the 50 ms buffer) and prune again, record
    the request, then apply the `minDelay = windowMs / maxRequests` smoothing
    which re-stamps the recorded timestamp.  Returns the new state and the time
    at which the request is finally admitted. -/
def rateLimitStep (maxReq : Nat) (windowMs : Int) (s : RLState) (now : Int) : RLState × Int :=
  let p := rlPrune maxReq windowMs s.ts (max s.rau now)
  let tAdmit := rlSmooth (windowMs / maxReq) p.1 p.2
  (⟨p.2 ++ [tAdmit], s.rau⟩, tAdmit)

/-- A sequence of sequential `rateLimit()` calls: each list element is the delay
    between the previous admission and the next call's arrival.  Returns the
    admission timestamps. -/
def runRL (maxReq : Nat) (windowMs : Int) : RLState → Int → List Int → List Int
  | _, _, [] => []
  | s, tprev, g :: gs =>
    let r := rateLimitStep maxReq windowMs s (tprev + g)
    r.2 :: runRL maxReq windowMs r.1 r.2 gs

/-- Number of admissions inside the half-open window `[a, a + windowMs)`. -/
def windowCount (windowMs a : Int) (l : List Int) : Nat :=
  l.countP (fun t => decide (a ≤ t ∧ t < a + windowMs))

/-- `needle` is an initial segment of `hay` (character-wise). -/
def leadMatch : List Char → List Char → Bool
  | [], _ => true
  | _ :: _, [] => false
  | a :: as, b :: bs => a == b && leadMatch as bs

/-- `hay.includes(needle)` on character lists. -/
def hasSub (hay needle : List Char) : Bool :=
  match hay with
  | [] => needle.isEmpty
  | _ :: rest => leadMatch needle hay || hasSub rest needle

/-- The known public endpoints of `isCustomRpcEndpoint` in `web/src/utils.js`. -/
def defaultEndpointsList : List String :=
  ["https://api.testnet.solana.com",
   "https://api.devnet.solana.com",
   "https://api.mainnet-beta.solana.com",
   "https://rpc.testnet.soo.network",
   "http://localhost:8899"]

/-- `isCustomRpcEndpoint(url)` from `web/src/utils.js`. -/
def isCustomRpcEndpoint (url : String) : Bool :=
  if url.isEmpty then false
  else !(defaultEndpointsList.any (fun d => hasSub url.toList d.toList))

/-- The call-site gating in `useSolanaCatalog.js`:
    `if (!isCustom && rateLimiter._enabled) await rateLimiter.rateLimit()`. -/
def gatedRateLimit (url : String) (enabled : Bool) (s : RLState) (now : Int) : RLState × Int :=
  if !(isCustomRpcEndpoint url) && enabled then rateLimitStep 40 10000 s now
  else (s, now)

/-! ### `retry` (`sdk/src/utils.ts`) -/

/-- The retry loop with `remaining` attempts left, the current `attempt` number
    and the last error seen.  The pair's second component records the back-off
    sleeps (`baseDelayMs * 2^attempt`, skipped after the final attempt).  A run
    with zero attempts rethrows `none` (the JS `undefined`). -/
def retryAux {ε α : Type} (fn : Nat → Except ε α) (base : Nat) :
    Nat → Nat → Option ε → Except (Option ε) α × List Nat
  | 0, _, last => (.error last, [])
  | r + 1, attempt, _ =>
    match fn attempt with
    | .ok v => (.ok v, [])
    | .error e =>
      if r = 0 then (.error (some e), [])
      else
        let rest := retryAux fn base r (attempt + 1) (some e)
        (rest.1, base * 2 ^ attempt :: rest.2)

/-- `retry(fn, maxRetries, baseDelayMs)` from `sdk/src/utils.ts`; `fn` maps the
    attempt number to that attempt's outcome. -/
def retry {ε α : Type} (fn : Nat → Except ε α) (maxRetries : Nat) (baseDelayMs : Nat) :
    Except (Option ε) α × List Nat :=
  retryAux fn baseDelayMs maxRetries 0 none

/-! ### Publish pipeline (`publishCartridge` in `sdk/src/client.ts`)

The network environment is an explicit oracle: the decoded manifest found at
the derived address, the ignore-list membership of the computed content id,
the signature returned by each successful submission, and the per-attempt
outcome of each `writeChunk` submission.  Transaction signatures are modelled
as `Nat` identifiers. -/

structure CatalogRootView where
  latestPageIndex : Nat
  deriving Repr, DecidableEq

structure CatalogPageView where
  entryCount : Nat
  deriving Repr, DecidableEq

structure PublishEnv where
  existing : Option CartridgeManifest
  ignored : Bool
  createManifestSig : Nat
  writeChunkAttempt : Nat → Nat → Except Unit Nat
  catalogRoot : Option CatalogRootView
  currentPage : Option CatalogPageView
  finalizeSig : Nat

/-- Ledger-mutating transaction submissions of the publish pipeline. -/
inductive LedgerOp where
  | createManifest
  | writeChunk (index : Nat)
  | finalizeCartridge
  deriving Repr, DecidableEq

inductive PublishErr where
  | sizeExceeded
  | refused
  | conflict
  | chunkFailed (index : Nat)
  | catalogNotInitialized
  | pageFull
  deriving Repr, DecidableEq

structure PublishResultModel where
  signatures : List Nat
  alreadyExists : Bool
  deriving Repr, DecidableEq

/-- One chunk submission wrapped in
    `retry(() => this.writeChunk(...), 5, 1000)` (`sdk/src/client.ts`). -/
def submitChunkWithRetry (env : PublishEnv) (index : Nat) :
    Except (Option Unit) Nat × List Nat :=
  retry (env.writeChunkAttempt index) 5 1000

/-- Scan a wave's settled results in order: first rejection wins, otherwise
    collect the signatures (`Promise.allSettled` processing loop). -/
def collectWave : List (Nat × Except (Option Unit) Nat) → Except Nat (List Nat)
  | [] => .ok []
  | (i, .error _) :: _ => .error i
  | (_, .ok sig) :: rest =>
    match collectWave rest with
    | .error j => .error j
    | .ok sigs => .ok (sig :: sigs)

/-- The wave loop of `publishCartridge`: waves of `concurrentUploads` chunk
    submissions; the first failed submission aborts with `chunkFailed`.  Also
    returns the `writeChunk` submissions made. -/
def uploadChunks (env : PublishEnv) : List (List Nat) → Except PublishErr (List Nat) × List LedgerOp
  | [] => (.ok [], [])
  | wave :: rest =>
    let results := wave.map (fun i => (i, (submitChunkWithRetry env i).1))
    let ops := wave.map LedgerOp.writeChunk
    match collectWave results with
    | .error i => (.error (.chunkFailed i), ops)
    | .ok sigs =>
      let r := uploadChunks env rest
      (match r.1 with
       | .ok more => .ok (sigs ++ more)
       | .error e => .error e,
       ops ++ r.2)

/-- `publishCartridge` from `sdk/src/client.ts` (the compiled `client.js` differs
    only in uploading chunks sequentially): size check, ignore-list check,
    existing-manifest check (skip-if-exists only when finalized, otherwise throw
    `already exists`), split, create manifest, upload waves with retry, page
    capacity check against `ENTRIES_PER_PAGE` (= 16 in `constants.ts`), finalize.
    Besides the result it returns the list of submitted ledger transactions. -/
def publishCartridge (env : PublishEnv) (zipBytes : Bytes) (chunkSize : Nat)
    (skipExisting : Bool) (concurrentUploads : Nat) :
    Except PublishErr PublishResultModel × List LedgerOp :=
  if MAX_CARTRIDGE_SIZE < zipBytes.length then (.error .sizeExceeded, [])
  else if env.ignored then (.error .refused, [])
  else
    match env.existing with
    | some m =>
      if skipExisting && m.finalized then (.ok ⟨[], true⟩, [])
      else (.error .conflict, [])
    | none =>
      let chunks := splitIntoChunks zipBytes chunkSize
      let numChunks := chunks.length
      let waves := batchList (List.range numChunks) concurrentUploads
      let up := uploadChunks env waves
      match up.1 with
      | .error e => (.error e, LedgerOp.createManifest :: up.2)
      | .ok chunkSigs =>
        match env.catalogRoot with
        | none => (.error .catalogNotInitialized, LedgerOp.createManifest :: up.2)
        | some _ =>
          match env.currentPage with
          | none => (.error .pageFull, LedgerOp.createManifest :: up.2)
          | some page =>
            if ENTRIES_PER_PAGE_sdk ≤ page.entryCount then
              (.error .pageFull, LedgerOp.createManifest :: up.2)
            else
              (.ok ⟨env.createManifestSig :: chunkSigs ++ [env.finalizeSig], false⟩,
               LedgerOp.createManifest :: up.2 ++ [LedgerOp.finalizeCartridge])

/-! ### Fetch pipelines

`ledger i` is the raw account data of chunk `i`'s derived address when the
account exists with nonempty data (`accountExists`), `none` otherwise.  The
SHA-256 primitive is again a parameter. -/

inductive FetchErr where
  | missing (indices : List Nat)
  | layout
  | integrity
  | sizeMismatch
  deriving Repr, DecidableEq

structure FetchResultModel where
  zipBytes : Bytes
  verified : Bool
  deriving Repr, DecidableEq

/-- The indices still `null` after the fetch loop
    (`chunks.reduce((acc,c,i) => c === null ? [...acc,i] : acc, [])`). -/
def missingIndices (chunks : List (Option Bytes)) : List Nat :=
  (chunks.enum.filter (fun p => p.2.isNone)).map (fun p => p.1)

/-- Chunk-collection loop of `fetchCartridgeBytes` in `sdk/src/client.ts`:
    every index is read from the ledger; a present account is decoded with
    `decodeCartridgeChunk` (a decoder throw aborts the fetch), an absent one
    leaves a `null` slot. -/
def collectChunksSdk (ledger : Nat → Option Bytes) : Nat → Except FetchErr (List (Option Bytes))
  | 0 => .ok []
  | n + 1 =>
    match collectChunksSdk ledger n with
    | .error e => .error e
    | .ok firsts =>
      match ledger n with
      | none => .ok (firsts ++ [none])
      | some raw =>
        match decodeCartridgeChunk raw with
        | none => .error .layout
        | some r => .ok (firsts ++ [some r.data])

/-- `fetchCartridgeBytes` from `sdk/src/client.ts` after the manifest was read:
    collect chunks, fail on missing indices, concatenate, then (by default)
    verify the SHA-256 of the reconstruction against `manifest.sha256` —
    mismatch throws, match returns `verified = true`. -/
def fetchCartridgeBytesSdk (hash : Bytes → Bytes) (manifest : CartridgeManifest)
    (ledger : Nat → Option Bytes) (verifyHash : Bool) : Except FetchErr FetchResultModel :=
  match collectChunksSdk ledger manifest.numChunks with
  | .error e => .error e
  | .ok chunks =>
    let miss := missingIndices chunks
    if miss ≠ [] then .error (.missing miss)
    else
      let zipBytes := concatBytes (chunks.map (fun c => c.getD []))
      if verifyHash then
        if verifySHA256 hash zipBytes manifest.sha256 then .ok ⟨zipBytes, true⟩
        else .error .integrity
      else .ok ⟨zipBytes, false⟩

/-- Chunk-collection loop of `loadCartridge` in `useSolanaCartridge.js`
    (web decoder variant). -/
def collectChunksWeb (ledger : Nat → Option Bytes) : Nat → Except FetchErr (List (Option Bytes))
  | 0 => .ok []
  | n + 1 =>
    match collectChunksWeb ledger n with
    | .error e => .error e
    | .ok firsts =>
      match ledger n with
      | none => .ok (firsts ++ [none])
      | some raw =>
        match decodeCartridgeChunkWeb raw with
        | none => .error .layout
        | some d => .ok (firsts ++ [some d])

/-- `loadCartridge` from `useSolanaCartridge.js` after the manifest was read.
    The per-chunk cache (`useCache.js`'s chunk store) is passed in, but the
    source never consults it in this path — every index is fetched from the
    ledger.  The reconstruction buffer is `Uint8Array(totalSize)`: shorter data
    leaves trailing zeros, longer data makes `set` throw. -/
def loadCartridgeWeb (hash : Bytes → Bytes) (manifest : CartridgeManifest)
    (ledger : Nat → Option Bytes) (chunkCache : Nat → Option Bytes) : Except FetchErr Bytes :=
  match collectChunksWeb ledger manifest.numChunks with
  | .error e => .error e
  | .ok chunks =>
    let miss := missingIndices chunks
    if miss ≠ [] then .error (.missing miss)
    else
      let total := concatBytes (chunks.map (fun c => c.getD []))
      if manifest.zipSize < total.length then .error .sizeMismatch
      else
        let reconstructed := total ++ List.replicate (manifest.zipSize - total.length) 0
        if verifySHA256 hash reconstructed manifest.sha256 then .ok reconstructed
        else .error .integrity

/-- Modelled from the spec (§4.6 steps 2-3 and the cache-transparency property,
    which no code under src/ implements): the fetch pipeline described by the
    claim, which first queries the chunk cache for every index, places hits in
    the output vector, and reads only the missing indices from the ledger. -/
def collectChunksSpecCached (ledger chunkCache : Nat → Option Bytes) :
    Nat → Except FetchErr (List (Option Bytes))
  | 0 => .ok []
  | n + 1 =>
    match collectChunksSpecCached ledger chunkCache n with
    | .error e => .error e
    | .ok firsts =>
      match chunkCache n with
      | some cached => .ok (firsts ++ [some cached])
      | none =>
        match ledger n with
        | none => .ok (firsts ++ [none])
        | some raw =>
          match decodeCartridgeChunkWeb raw with
          | none => .error .layout
          | some d => .ok (firsts ++ [some d])

/-- Modelled from the spec: the whole cache-first fetch the claim describes,
    with the same reconstruction and verification tail as `loadCartridgeWeb`. -/
def fetchWithChunkCacheSpec (hash : Bytes → Bytes) (manifest : CartridgeManifest)
    (ledger : Nat → Option Bytes) (chunkCache : Nat → Option Bytes) : Except FetchErr Bytes :=
  match collectChunksSpecCached ledger chunkCache manifest.numChunks with
  | .error e => .error e
  | .ok chunks =>
    let miss := missingIndices chunks
    if miss ≠ [] then .error (.missing miss)
    else
      let total := concatBytes (chunks.map (fun c => c.getD []))
      if manifest.zipSize < total.length then .error .sizeMismatch
      else
        let reconstructed := total ++ List.replicate (manifest.zipSize - total.length) 0
        if verifySHA256 hash reconstructed manifest.sha256 then .ok reconstructed
        else .error .integrity

/-! Helper lemmas about `splitIntoChunks`. -/

theorem splitIntoChunks_nil (k : Nat) : splitIntoChunks [] k = [] := by
  unfold splitIntoChunks; simp

theorem splitIntoChunks_zero (data : Bytes) : splitIntoChunks data 0 = [] := by
  unfold splitIntoChunks; simp

theorem splitIntoChunks_cons (data : Bytes) (k : Nat) (hd : data ≠ []) (hk : k ≠ 0) :
    splitIntoChunks data k = data.take k :: splitIntoChunks (data.drop k) k := by
  rw [splitIntoChunks]
  simp [hd, hk]

/-- Concatenating the chunks restores the data. -/
theorem join_splitIntoChunks :
    ∀ (data : Bytes) (k : Nat), 0 < k → concatBytes (splitIntoChunks data k) = data := by
  intro data k
  induction data, k using splitIntoChunks.induct with
  | case1 data k h =>
    intro hk
    rcases h with h | h
    · subst h; simp [splitIntoChunks_nil, concatBytes]
    · omega
  | case2 data k h ih =>
    intro hk
    simp only [not_or] at h
    rw [splitIntoChunks_cons data k h.1 h.2]
    simp only [concatBytes, List.flatten_cons] at ih ⊢
    rw [ih hk, List.take_append_drop]

/-- The number of chunks is `⌈len / k⌉ = (len + k - 1) / k`. -/
theorem length_splitIntoChunks :
    ∀ (data : Bytes) (k : Nat), 0 < k →
      (splitIntoChunks data k).length = (data.length + k - 1) / k := by
  intro data k
  induction data, k using splitIntoChunks.induct with
  | case1 data k h =>
    intro hk
    rcases h with h | h
    · subst h; simp [splitIntoChunks_nil, Nat.div_eq_of_lt (by omega : k - 1 < k)]
    · omega
  | case2 data k h ih =>
    intro hk
    simp only [not_or] at h
    rw [splitIntoChunks_cons data k h.1 h.2]
    have hpos : 0 < data.length := List.length_pos.mpr h.1
    simp only [List.length_cons, ih hk, List.length_drop]
    rcases Nat.lt_or_ge data.length k with hlt | hge
    · have h1 : data.length - k = 0 := by omega
      rw [h1]
      have h2 : (data.length + k - 1) / k = 1 := by
        apply Nat.div_eq_of_lt_le <;> omega
      have h3 : (k - 1) / k = 0 := Nat.div_eq_of_lt (by omega)
      simp [h2, h3]
    · have h1 : data.length - k + k - 1 = data.length - 1 := by omega
      have h2 : data.length + k - 1 = (data.length - 1) + k := by omega
      rw [h1, h2, Nat.add_div_right _ hk]

/-- Every chunk except possibly the last has length exactly `k`, and every chunk
    is nonempty with length at most `k`. -/
theorem splitIntoChunks_lengths :
    ∀ (data : Bytes) (k : Nat), 0 < k →
      (∀ c ∈ (splitIntoChunks data k).dropLast, c.length = k) ∧
      (∀ c ∈ splitIntoChunks data k, 0 < c.length ∧ c.length ≤ k) := by
  intro data k
  induction data, k using splitIntoChunks.induct with
  | case1 data k h =>
    intro hk
    rcases h with h | h
    · subst h; simp [splitIntoChunks_nil]
    · omega
  | case2 data k h ih =>
    intro hk
    simp only [not_or] at h
    have hpos : 0 < data.length := List.length_pos.mpr h.1
    rw [splitIntoChunks_cons data k h.1 h.2]
    refine ⟨?_, ?_⟩
    · intro c hc
      rcases Nat.lt_or_ge data.length k with hlt | hge
      · have hdrop : data.drop k = [] := by
          apply List.eq_nil_of_length_eq_zero
          simp [List.length_drop]; omega
        rw [hdrop, splitIntoChunks_nil] at hc
        simp at hc
      · rcases List.eq_nil_or_concat (splitIntoChunks (data.drop k) k) with htail | ⟨l, a, hla⟩
        · rw [htail] at hc; simp at hc
        · rw [hla, ← List.concat_cons, List.concat_eq_append, List.dropLast_concat] at hc
          rcases List.mem_cons.mp hc with rfl | hc'
          · simp [List.length_take]; omega
          · exact (ih hk).1 c
              (by rw [hla, List.concat_eq_append, List.dropLast_concat]; exact hc')
    · intro c hc
      rcases List.mem_cons.mp hc with rfl | hc'
      · refine ⟨?_, ?_⟩
        · simp [List.length_take]; omega
        · simp [List.length_take]
      · exact (ih hk).2 c hc'


/-- The entry loop decodes exactly as many entries as it is asked for. -/
theorem decodeEntries_length (b : Bytes) :
    ∀ (n : Nat) (es : List CatalogEntry), decodeEntries b n = some es → es.length = n := by
  intro n
  induction n with
  | zero => intro es h; simp [decodeEntries] at h; simp [← h]
  | succ n ih =>
    intro es h
    simp only [decodeEntries, Option.bind_eq_bind, Option.bind_eq_some] at h
    obtain ⟨firsts, hf, e, he, hes⟩ := h
    simp only [Option.some_inj] at hes
    subst hes
    simp [ih firsts hf]

/-- The decoded page carries `min entryCount cap` entries. -/
theorem decodeCatalogPage_entries_length (cap : Nat) (b : Bytes) (p : CatalogPage)
    (h : decodeCatalogPage cap b = some p) : p.entries.length = min p.entryCount cap := by
  simp only [decodeCatalogPage, Option.bind_eq_bind, Option.bind_eq_some] at h
  obtain ⟨pageIndex, _, entryCount, hc, bump, _, entries, he, hp⟩ := h
  simp only [Option.some_inj] at hp
  subst hp
  simpa using decodeEntries_length b _ entries he

/-- A successful fixed-offset read implies the buffer covers it. -/
theorem readLE_bound {b : Bytes} {off n v : Nat} (h : readLE b off n = some v) :
    off + n ≤ b.length := by
  by_cases hc : off + n ≤ b.length
  · exact hc
  · exfalso
    unfold readLE at h
    rw [if_neg hc] at h
    exact Option.noConfusion h

/-- A read within the buffer succeeds. -/
theorem readLE_of_le {b : Bytes} {off n : Nat} (h : off + n ≤ b.length) :
    readLE b off n = some (leVal ((b.drop off).take n)) := by
  unfold readLE
  exact if_pos h

/-- The manifest decoder succeeds exactly when the buffer covers the fixed layout
    up to the `bump` byte at offset 131; nothing else (in particular not the
    discriminator) is checked. -/
theorem decodeCartridgeManifest_isSome_iff (b : Bytes) :
    (decodeCartridgeManifest b).isSome = true ↔ 132 ≤ b.length := by
  constructor
  · intro h
    rw [Option.isSome_iff_exists] at h
    obtain ⟨m, hm⟩ := h
    simp only [decodeCartridgeManifest, Option.bind_eq_bind, Option.bind_eq_some] at hm
    obtain ⟨z, hz, c, hc, n, hn, f, hf, s, hs, ml, hml, bp, hbp, _⟩ := hm
    have := readLE_bound hbp
    omega
  · intro h
    have c1 : 40 + 8 ≤ b.length := by omega
    have c2 : 48 + 4 ≤ b.length := by omega
    have c3 : 52 + 4 ≤ b.length := by omega
    have c4 : 88 + 1 ≤ b.length := by omega
    have c5 : 89 + 8 ≤ b.length := by omega
    have c6 : 129 + 2 ≤ b.length := by omega
    have c7 : 131 + 1 ≤ b.length := by omega
    simp [decodeCartridgeManifest, readLE_of_le, c1, c2, c3, c4, c5, c6, c7]

/-- Whenever the manifest decoder succeeds, the metadata is clamped to at most
    `MAX_METADATA_LEN` bytes instead of being rejected. -/
theorem decodeCartridgeManifest_metadata_clamped (b : Bytes) (m : CartridgeManifest)
    (h : decodeCartridgeManifest b = some m) :
    m.metadata.length ≤ MAX_METADATA_LEN := by
  simp only [decodeCartridgeManifest, Option.bind_eq_bind, Option.bind_eq_some] at h
  obtain ⟨z, hz, c, hc, n, hn, f, hf, s, hs, ml, hml, bp, hbp, hm⟩ := h
  simp only [Option.some_inj] at hm
  subst hm
  simp only [subarray, List.length_take, List.length_drop, MAX_METADATA_LEN]
  omega

/-- The SDK chunk decoder succeeds exactly when the buffer covers the fixed layout
    up to the data-vector length prefix ending at offset 53. -/
theorem decodeCartridgeChunk_isSome_iff (b : Bytes) :
    (decodeCartridgeChunk b).isSome = true ↔ 54 ≤ b.length := by
  constructor
  · intro h
    rw [Option.isSome_iff_exists] at h
    obtain ⟨r, hr⟩ := h
    simp only [decodeCartridgeChunk, Option.bind_eq_bind, Option.bind_eq_some] at hr
    obtain ⟨ci, hci, dl, hdl, w, hw, bp, hbp, vl, hvl, _⟩ := hr
    have := readLE_bound hvl
    omega
  · intro h
    have c1 : 40 + 4 ≤ b.length := by omega
    have c2 : 44 + 4 ≤ b.length := by omega
    have c3 : 48 + 1 ≤ b.length := by omega
    have c4 : 49 + 1 ≤ b.length := by omega
    have c5 : 50 + 4 ≤ b.length := by omega
    simp [decodeCartridgeChunk, readLE_of_le, c1, c2, c3, c4, c5]

/-- Same for the web chunk decoder. -/
theorem decodeCartridgeChunkWeb_isSome_iff (b : Bytes) :
    (decodeCartridgeChunkWeb b).isSome = true ↔ 54 ≤ b.length := by
  constructor
  · intro h
    rw [Option.isSome_iff_exists] at h
    obtain ⟨r, hr⟩ := h
    simp only [decodeCartridgeChunkWeb, Option.bind_eq_bind, Option.bind_eq_some] at hr
    obtain ⟨dl, hdl, vl, hvl, _⟩ := hr
    have := readLE_bound hvl
    omega
  · intro h
    have c1 : 44 + 4 ≤ b.length := by omega
    have c2 : 50 + 4 ≤ b.length := by omega
    simp [decodeCartridgeChunkWeb, readLE_of_le, c1, c2]

/-- Scanning the assignment stages and then applying the default equals the
    first-nonzero selection. -/
theorem foldl_assignIfFalsy_finalize :
    ∀ (l : List (Option Int)) (cur : Option Int),
      finalizeDelay (l.foldl assignIfFalsy cur) =
        if truthy cur then finalizeDelay cur else firstNonzero l := by
  intro l
  induction l with
  | nil =>
    intro cur
    rcases cur with _ | v
    · simp [finalizeDelay, truthy, firstNonzero]
    · by_cases hv : v = 0 <;> simp [finalizeDelay, truthy, firstNonzero, hv]
  | cons c rest ih =>
    intro cur
    simp only [List.foldl_cons]
    rw [ih (assignIfFalsy cur c)]
    by_cases hcur : truthy cur = true
    · simp [assignIfFalsy, hcur]
    · have hcur' : truthy cur = false := by
        cases h : truthy cur
        · rfl
        · exact absurd h hcur
      rcases c with _ | v
      · have hn : truthy none = false := rfl
        simp [assignIfFalsy, hcur', firstNonzero, hn]
      · by_cases hv : v = 0
        · subst hv
          have h0 : truthy (some (0 : Int)) = false := by decide
          simp [assignIfFalsy, hcur', firstNonzero, h0]
        · have hvt : truthy (some v) = true := by simp [truthy, hv]
          simp [assignIfFalsy, hcur', firstNonzero, hvt, finalizeDelay, hv]

/-! ## Claim theorems -/

/-- C3: for every blob of at least one byte and chunk size greater than zero,
    `splitIntoChunks` produces exactly `⌈blob_size / chunk_size⌉` chunks, every
    chunk except the last has length `chunk_size`, every chunk (in particular
    the last) has length in `(0, chunk_size]`, and `concatBytes` applied to the
    chunks in order returns the original blob. -/
theorem C3_split_concat_roundtrip (data : Bytes) (chunkSize : Nat)
    (hd : data ≠ []) (hk : 0 < chunkSize) :
    (splitIntoChunks data chunkSize).length = (data.length + chunkSize - 1) / chunkSize ∧
    (∀ c ∈ (splitIntoChunks data chunkSize).dropLast, c.length = chunkSize) ∧
    (∀ c ∈ splitIntoChunks data chunkSize, 0 < c.length ∧ c.length ≤ chunkSize) ∧
    concatBytes (splitIntoChunks data chunkSize) = data :=
  ⟨length_splitIntoChunks data chunkSize hk,
   (splitIntoChunks_lengths data chunkSize hk).1,
   (splitIntoChunks_lengths data chunkSize hk).2,
   join_splitIntoChunks data chunkSize hk⟩

/-- Witness for C3 at the concrete blob `[1,2,3,4,5]` with chunk size 2. -/
theorem C3_split_concat_roundtrip_witness :
    (([1, 2, 3, 4, 5] : Bytes) ≠ [] ∧ 0 < 2) ∧
    ((splitIntoChunks ([1, 2, 3, 4, 5] : Bytes) 2).length =
        (([1, 2, 3, 4, 5] : Bytes).length + 2 - 1) / 2 ∧
      (∀ c ∈ (splitIntoChunks ([1, 2, 3, 4, 5] : Bytes) 2).dropLast, c.length = 2) ∧
      (∀ c ∈ splitIntoChunks ([1, 2, 3, 4, 5] : Bytes) 2, 0 < c.length ∧ c.length ≤ 2) ∧
      concatBytes (splitIntoChunks ([1, 2, 3, 4, 5] : Bytes) 2) = [1, 2, 3, 4, 5]) :=
  ⟨⟨by decide, by decide⟩,
   C3_split_concat_roundtrip [1, 2, 3, 4, 5] 2 (by decide) (by decide)⟩

set_option maxRecDepth 4096 in
/-- C4 counterexample: a 132-byte buffer whose leading 8 bytes differ from the
    manifest discriminator is decoded successfully rather than rejected; a
    buffer declaring `metadata_len = 300 > 256` is also decoded successfully
    (the length is clamped, not rejected); the chunk decoder accepts a buffer
    declaring `data_len = 65535` without any `data_len ≤ chunk_size` check. -/
theorem C4_counterexample :
    (decodeCartridgeManifest (List.replicate 132 0)).isSome = true ∧
    subarray (List.replicate 132 0) 0 8 ≠ DISC_cartridgeManifest ∧
    (decodeCartridgeManifest (List.replicate 129 0 ++ [44, 1, 0])).map
        (fun m => m.metadataLen) = some 300 ∧
    (decodeCartridgeManifest (List.replicate 129 0 ++ [44, 1, 0])).map
        (fun m => m.metadata) = some [] ∧
    (decodeCartridgeChunk
        (List.replicate 44 0 ++ [255, 255, 0, 0] ++ List.replicate 6 0)).map
        (fun r => r.dataLen) = some 65535 := by
  decide

/-- C4 (amended): the decoders reject only buffers too short for the fixed
    layout (manifest: 132 bytes, chunk: 54 bytes); the discriminator is never
    compared, and over-long declared lengths are clamped (`metadata` to 256)
    rather than rejected. -/
theorem C4_decoders_accept_without_validation (b : Bytes) :
    ((decodeCartridgeManifest b).isSome = true ↔ 132 ≤ b.length) ∧
    ((decodeCartridgeChunk b).isSome = true ↔ 54 ≤ b.length) ∧
    ((decodeCartridgeChunkWeb b).isSome = true ↔ 54 ≤ b.length) ∧
    (decodeCartridgeManifest b).all
      (fun m => decide (m.metadata.length ≤ MAX_METADATA_LEN)) = true := by
  refine ⟨decodeCartridgeManifest_isSome_iff b, decodeCartridgeChunk_isSome_iff b,
    decodeCartridgeChunkWeb_isSome_iff b, ?_⟩
  cases hd : decodeCartridgeManifest b with
  | none => rfl
  | some m =>
    simp only [Option.all_some, decide_eq_true_eq]
    exact decodeCartridgeManifest_metadata_clamped b m hd

/-- C5 counterexample: the web RPC client and the compiled SDK constants
    hard-code the page capacity 32, so not every client component bounds the
    entries it reads by 16. -/
theorem C5_counterexample :
    ENTRIES_PER_PAGE_webRpc = 32 ∧ ENTRIES_PER_PAGE_sdkDist = 32 ∧
    ¬ENTRIES_PER_PAGE_webRpc = 16 := by
  decide

/-- C5 (amended): the TypeScript SDK constants and the catalog composable use a
    page capacity of 16, while the compiled SDK constants and the web RPC client
    hard-code 32; each page decoder reads `min(entry_count, its capacity)`
    entries. -/
theorem C5_page_capacities (b : Bytes) :
    ENTRIES_PER_PAGE_sdk = 16 ∧ ENTRIES_PER_PAGE_catalog = 16 ∧
    ENTRIES_PER_PAGE_webRpc = 32 ∧ ENTRIES_PER_PAGE_sdkDist = 32 ∧
    (decodeCatalogPageWebRpc b).all
      (fun p => decide (p.entries.length = min p.entryCount 32)) = true ∧
    (decodeCatalogPageCatalog b).all
      (fun p => decide (p.entries.length = min p.entryCount 16)) = true := by
  refine ⟨rfl, rfl, rfl, rfl, ?_, ?_⟩
  · cases hd : decodeCatalogPageWebRpc b with
    | none => rfl
    | some p =>
      simp only [Option.all_some, decide_eq_true_eq]
      exact decodeCatalogPage_entries_length _ b p hd
  · cases hd : decodeCatalogPageCatalog b with
    | none => rfl
    | some p =>
      simp only [Option.all_some, decide_eq_true_eq]
      exact decodeCatalogPage_entries_length _ b p hd

/-- Fidelity checks of the body and message stages: a raw-truthy `retryAfter`
    of `"0"` masks a numeric `retry_after: 7` (the code parses the selected
    `"0"`, which is falsy, and defaults to 1); and when the first message regex
    captures `0` while the `retry after 30 seconds` regex captures `30`, the
    second capture is used. -/
theorem handle429_body_and_message_examples :
    handle429Delay none none true (some 0) true (some 7) none none none = 1 ∧
    handle429Delay none none false none false none (some 0) (some 30) none = 30 := by
  decide

/-- C8 counterexample: with a `Retry-After` response header present and parsing
    to `0`, and no other source, the handler's delay is the default 1 second
    rather than the header's value 0 — JavaScript truthiness makes a parsed 0
    fall through. -/
theorem C8_counterexample :
    handle429Delay (some 0) none false none false none none none none = 1 ∧
    (1 : Int) ≠ 0 := by
  decide

/-- C8 (amended): the delay is the first candidate whose parsed value is
    nonzero, scanning the response header, the error's response header, the
    JSON body value `retryAfter || retry_after` (selected by raw JavaScript
    truthiness before parsing, so a raw-truthy `retryAfter` masks
    `retry_after`), the `retry after N` text pattern, the `retry after N
    seconds` text pattern, and the `{"retryAfter": N}` text pattern, with
    default 1 when every candidate is absent, non-numeric or zero;
    `retry_after_until` is set to `now + delay·1000 ms + 100 ms`, at least
    `delay` seconds in the future. -/
theorem C8_retry_after_selection (h1 h2 : Option Int) (rawA : Bool) (pA : Option Int)
    (rawB : Bool) (pB : Option Int) (m1 m2 j : Option Int) (now : Int) :
    handle429Delay h1 h2 rawA pA rawB pB m1 m2 j =
      firstNonzero [h1, h2, bodyCandidate rawA pA rawB pB, m1, m2, j] ∧
    handle429Until now h1 h2 rawA pA rawB pB m1 m2 j =
      now + handle429Delay h1 h2 rawA pA rawB pB m1 m2 j * 1000 + 100 ∧
    now + handle429Delay h1 h2 rawA pA rawB pB m1 m2 j * 1000 ≤
      handle429Until now h1 h2 rawA pA rawB pB m1 m2 j := by
  refine ⟨?_, rfl, by simp [handle429Until]⟩
  unfold handle429Delay
  rw [foldl_assignIfFalsy_finalize]
  simp [truthy]

/-- One-step unfolding of the retry loop. -/
theorem retryAux_succ_eq {ε α : Type} (fn : Nat → Except ε α) (base r attempt : Nat)
    (last : Option ε) :
    retryAux fn base (r + 1) attempt last =
      match fn attempt with
      | .ok v => (.ok v, [])
      | .error e =>
        if r = 0 then (.error (some e), [])
        else
          let rest := retryAux fn base r (attempt + 1) (some e)
          (rest.1, base * 2 ^ attempt :: rest.2) := rfl

/-- When every attempt in the remaining budget fails, the loop sleeps the
    doubling back-off after every attempt but the last and rethrows the final
    error. -/
theorem retryAux_all_fail {ε α : Type} (fn : Nat → Except ε α) (base : Nat) (errs : Nat → ε) :
    ∀ (r attempt : Nat) (last : Option ε), 0 < r →
      (∀ a, attempt ≤ a → a < attempt + r → fn a = .error (errs a)) →
      retryAux fn base r attempt last =
        (.error (some (errs (attempt + r - 1))),
         (List.range' attempt (r - 1)).map (fun a => base * 2 ^ a)) := by
  intro r
  induction r with
  | zero => intro attempt last h; omega
  | succ r ih =>
    intro attempt last _ hfail
    have hthis : fn attempt = .error (errs attempt) := hfail attempt le_rfl (by omega)
    by_cases hr : r = 0
    · subst hr
      simp [retryAux, hthis, List.range']
    · obtain ⟨r', rfl⟩ : ∃ r', r = r' + 1 := ⟨r - 1, by omega⟩
      rw [retryAux_succ_eq fn base (r' + 1) attempt last]
      simp only [hthis]
      rw [if_neg hr]
      rw [ih (attempt + 1) (some (errs attempt)) (by omega)
            (fun a h1 h2 => hfail a (by omega) (by omega))]
      have e1 : attempt + 1 + (r' + 1) - 1 = attempt + (r' + 1 + 1) - 1 := by omega
      have e2 : r' + 1 - 1 = r' := by omega
      have e3 : r' + 1 + 1 - 1 = r' + 1 := by omega
      rw [e1, e2, e3, List.range'_succ]
      simp

/-- When the first `j` attempts fail and attempt `j` succeeds (within budget),
    the loop returns the success and has slept the doubling back-off once per
    failed attempt. -/
theorem retryAux_success {ε α : Type} (fn : Nat → Except ε α) (base : Nat) (v : α) :
    ∀ (j r attempt : Nat) (last : Option ε), j < r →
      (∀ a, attempt ≤ a → a < attempt + j → ∃ e, fn a = .error e) →
      fn (attempt + j) = .ok v →
      retryAux fn base r attempt last =
        (.ok v, (List.range' attempt j).map (fun a => base * 2 ^ a)) := by
  intro j
  induction j with
  | zero =>
    intro r attempt last hjr hfail hok
    obtain ⟨r', rfl⟩ : ∃ r', r = r' + 1 := ⟨r - 1, by omega⟩
    rw [Nat.add_zero] at hok
    simp [retryAux_succ_eq, hok]
  | succ j ih =>
    intro r attempt last hjr hfail hok
    obtain ⟨r', rfl⟩ : ∃ r', r = r' + 1 := ⟨r - 1, by omega⟩
    obtain ⟨e, he⟩ := hfail attempt le_rfl (by omega)
    rw [retryAux_succ_eq fn base r' attempt last]
    simp only [he]
    rw [if_neg (by omega : ¬r' = 0)]
    have hrec := ih r' (attempt + 1) (some e) (by omega)
      (fun a h1 h2 => hfail a (by omega) (by omega))
      (by rw [show attempt + 1 + j = attempt + (j + 1) by omega]; exact hok)
    rw [hrec]
    simp [List.range'_succ]

/-- C9: a chunk submission wrapped by the publish pipeline makes at most 5
    attempts; after each failed attempt except the last it sleeps
    `1000 ms · 2^attempt` (1000 ms first, doubling), and when every attempt
    fails the last error is rethrown.  The third conjunct ties the wrapper used
    by `publishCartridge` to `retry(fn, 5, 1000)`. -/
theorem C9_chunk_retry_backoff {ε α : Type} (fn : Nat → Except ε α) :
    (∀ errs : Nat → ε, (∀ a, a < 5 → fn a = .error (errs a)) →
        retry fn 5 1000 = (.error (some (errs 4)), [1000, 2000, 4000, 8000])) ∧
    (∀ (k : Nat) (v : α), k < 5 → (∀ a, a < k → ∃ e, fn a = .error e) → fn k = .ok v →
        retry fn 5 1000 = (.ok v, (List.range k).map (fun a => 1000 * 2 ^ a))) ∧
    (∀ (env : PublishEnv) (i : Nat),
        submitChunkWithRetry env i = retry (env.writeChunkAttempt i) 5 1000) := by
  refine ⟨?_, ?_, fun env i => rfl⟩
  · intro errs h
    unfold retry
    rw [retryAux_all_fail fn 1000 errs 5 0 none (by omega)
          (fun a h1 h2 => h a (by omega))]
    rfl
  · intro k v hk hfail hok
    unfold retry
    rw [retryAux_success fn 1000 v k 5 0 none hk
          (fun a h1 h2 => hfail a (by omega)) (by simpa using hok)]
    rw [List.range_eq_range']

/-- Witness for C9: an attempt function failing once and succeeding on the
    second attempt retries with a single 1000 ms sleep. -/
theorem C9_chunk_retry_backoff_witness :
    retry (fun a => if a = 0 then (.error 7 : Except Nat Nat) else .ok 42) 5 1000 =
      (.ok 42, [1000]) := by
  have h := (C9_chunk_retry_backoff
      (fun a => if a = 0 then (.error 7 : Except Nat Nat) else .ok 42)).2.1 1 42
    (by omega)
    (by
      intro a ha
      have : a = 0 := by omega
      subst this
      exact ⟨7, rfl⟩)
    (by simp)
  rw [h]
  rfl

/-- C1 counterexample: with the manifest for the content id present and open
    (`finalized = false`), `publishCartridge` throws `already exists` and
    submits nothing, instead of resuming and returning success as the claim
    states. -/
theorem C1_counterexample :
    publishCartridge
      { existing := some ⟨[], 5, 4, 2, [], false, 0, [], 0, 0, []⟩
        ignored := false
        createManifestSig := 1
        writeChunkAttempt := fun _ _ => .ok 2
        catalogRoot := some ⟨0⟩
        currentPage := some ⟨0⟩
        finalizeSig := 3 }
      [104, 101, 108, 108, 111] 4 true 3 = (.error .conflict, []) := rfl

/-- C1 (amended): whenever the manifest already exists and it is not the case
    that it is finalized with skip-if-exists enabled — in particular whenever it
    is open — `publishCartridge` fails with the `already exists` conflict and
    submits no transaction; there is no resume path. -/
theorem C1_publish_open_conflict (env : PublishEnv) (zipBytes : Bytes)
    (chunkSize : Nat) (skipExisting : Bool) (conc : Nat) (m : CartridgeManifest)
    (hm : env.existing = some m)
    (hsize : zipBytes.length ≤ MAX_CARTRIDGE_SIZE)
    (hig : env.ignored = false)
    (hnot : ¬(skipExisting = true ∧ m.finalized = true)) :
    publishCartridge env zipBytes chunkSize skipExisting conc = (.error .conflict, []) := by
  have h1 : ¬MAX_CARTRIDGE_SIZE < zipBytes.length := Nat.not_lt.mpr hsize
  have hb : (skipExisting && m.finalized) = false := by
    rcases hsk : skipExisting <;> rcases hf : m.finalized <;> simp_all
  simp [publishCartridge, hm, hig, h1, hb]

/-- Witness for C1's amended theorem at a concrete open manifest. -/
theorem C1_publish_open_conflict_witness :
    publishCartridge
      { existing := some ⟨[], 9, 2, 5, [], false, 0, [], 0, 0, []⟩
        ignored := false
        createManifestSig := 1
        writeChunkAttempt := fun _ _ => .ok 2
        catalogRoot := some ⟨0⟩
        currentPage := some ⟨0⟩
        finalizeSig := 3 }
      [1, 2, 3] 2 true 3 = (.error .conflict, []) :=
  C1_publish_open_conflict _ [1, 2, 3] 2 true 3 ⟨[], 9, 2, 5, [], false, 0, [], 0, 0, []⟩
    rfl (by decide) rfl (by decide)

/-- C10: when the manifest exists, is finalized, and skip-if-exists is enabled,
    `publishCartridge` returns `alreadyExists = true` with an empty signature
    list and submits no `create_manifest`, `write_chunk` or `finalize_cartridge`
    transaction. -/
theorem C10_skip_existing_frame (env : PublishEnv) (zipBytes : Bytes)
    (chunkSize : Nat) (conc : Nat) (m : CartridgeManifest)
    (hm : env.existing = some m) (hfin : m.finalized = true)
    (hsize : zipBytes.length ≤ MAX_CARTRIDGE_SIZE) (hig : env.ignored = false) :
    publishCartridge env zipBytes chunkSize true conc =
      (.ok ⟨[], true⟩, []) := by
  have h1 : ¬MAX_CARTRIDGE_SIZE < zipBytes.length := Nat.not_lt.mpr hsize
  simp [publishCartridge, hm, hfin, hig, h1]

/-- Witness for C10 at a concrete finalized manifest. -/
theorem C10_skip_existing_frame_witness :
    publishCartridge
      { existing := some ⟨[], 9, 2, 5, [], true, 0, [], 0, 0, []⟩
        ignored := false
        createManifestSig := 1
        writeChunkAttempt := fun _ _ => .ok 2
        catalogRoot := some ⟨0⟩
        currentPage := some ⟨0⟩
        finalizeSig := 3 }
      [1, 2, 3] 2 true 3 = (.ok ⟨[], true⟩, []) :=
  C10_skip_existing_frame _ [1, 2, 3] 2 3 ⟨[], 9, 2, 5, [], true, 0, [], 0, 0, []⟩
    rfl rfl (by decide) rfl

/-- C2: with hash verification enabled (the default) and the chunk phase
    complete, the fetch compares the hash of the concatenated chunks with the
    manifest's declared sha256: on match it returns the blob with
    `verified = true`, on mismatch it fails with the integrity error instead of
    returning the blob. -/
theorem C2_fetch_verifies_hash (hash : Bytes → Bytes) (manifest : CartridgeManifest)
    (ledger : Nat → Option Bytes) (datas : List (Option Bytes))
    (hcollect : collectChunksSdk ledger manifest.numChunks = .ok datas)
    (hnomiss : missingIndices datas = []) :
    (hash (concatBytes (datas.map (fun c => c.getD []))) = manifest.sha256 →
      fetchCartridgeBytesSdk hash manifest ledger true =
        .ok ⟨concatBytes (datas.map (fun c => c.getD [])), true⟩) ∧
    (hash (concatBytes (datas.map (fun c => c.getD []))) ≠ manifest.sha256 →
      fetchCartridgeBytesSdk hash manifest ledger true = .error .integrity) := by
  constructor <;> intro hh <;>
    simp [fetchCartridgeBytesSdk, hcollect, hnomiss, verifySHA256, hh]

/-- Witness for C2: a one-chunk ledger whose chunk account carries `[9,8,7]`,
    with the identity function standing in for SHA-256. -/
theorem C2_fetch_verifies_hash_witness :
    fetchCartridgeBytesSdk (fun l => l) ⟨[], 3, 800, 1, [9, 8, 7], true, 0, [], 0, 0, []⟩
      (fun i => if i = 0
        then some (List.replicate 44 0 ++ [3, 0, 0, 0] ++ [0, 0] ++ [3, 0, 0, 0] ++ [9, 8, 7])
        else none)
      true = .ok ⟨[9, 8, 7], true⟩ := by
  have h := (C2_fetch_verifies_hash (fun l => l)
      ⟨[], 3, 800, 1, [9, 8, 7], true, 0, [], 0, 0, []⟩
      (fun i => if i = 0
        then some (List.replicate 44 0 ++ [3, 0, 0, 0] ++ [0, 0] ++ [3, 0, 0, 0] ++ [9, 8, 7])
        else none)
      [some [9, 8, 7]] (by rfl) (by rfl)).1 (by rfl)
  rw [h]
  rfl

/-- C6 counterexample: with chunk 0 present in the chunk cache but absent from
    the ledger, the fetch pipeline the claim describes (cache first, ledger for
    the missing rest) succeeds, while the code's `loadCartridge` fails with
    `Missing chunks: 0` — the code never queries the chunk cache. -/
theorem C6_counterexample :
    loadCartridgeWeb (fun l => l) ⟨[], 3, 800, 1, [1, 2, 3], true, 0, [], 0, 0, []⟩
      (fun _ => none) (fun i => if i = 0 then some [1, 2, 3] else none) =
        .error (.missing [0]) ∧
    fetchWithChunkCacheSpec (fun l => l) ⟨[], 3, 800, 1, [1, 2, 3], true, 0, [], 0, 0, []⟩
      (fun _ => none) (fun i => if i = 0 then some [1, 2, 3] else none) =
        .ok [1, 2, 3] :=
  ⟨rfl, rfl⟩

/-- C6 (amended): the fetch pipeline reads every chunk index from the ledger and
    never consults the per-chunk cache, so its result is independent of the
    cache's contents (the chunk-store helpers exist in `useCache.js` but are not
    called by `loadCartridge`). -/
theorem C6_fetch_ignores_chunk_cache (hash : Bytes → Bytes) (manifest : CartridgeManifest)
    (ledger : Nat → Option Bytes) (cache1 cache2 : Nat → Option Bytes) :
    loadCartridgeWeb hash manifest ledger cache1 =
      loadCartridgeWeb hash manifest ledger cache2 := rfl

/-- `dropOld` removes a prefix, all of whose members are at least a window old. -/
theorem dropOld_decomp (windowMs now : Int) :
    ∀ l : List Int, ∃ rem, l = rem ++ dropOld windowMs now l ∧
      ∀ t ∈ rem, t + windowMs ≤ now := by
  intro l
  induction l with
  | nil => exact ⟨[], rfl, by simp⟩
  | cons t rest ih =>
    by_cases h : windowMs ≤ now - t
    · obtain ⟨rem, hr, hold⟩ := ih
      refine ⟨t :: rem, ?_, ?_⟩
      · simp only [dropOld, if_pos h, List.cons_append]
        exact congrArg (List.cons t) hr
      · intro x hx
        rcases List.mem_cons.mp hx with rfl | hx'
        · omega
        · exact hold x hx'
    · exact ⟨[], by simp [dropOld, if_neg h], by simp⟩

/-- Pruning never lengthens the list. -/
theorem dropOld_length (windowMs now : Int) :
    ∀ l : List Int, (dropOld windowMs now l).length ≤ l.length := by
  intro l
  induction l with
  | nil => simp [dropOld]
  | cons t rest ih =>
    by_cases h : windowMs ≤ now - t
    · simp only [dropOld, if_pos h]
      exact le_trans ih (by simp)
    · simp [dropOld, if_neg h]

/-- The prune-and-wait phase: time only advances, the surviving entries are a
    suffix of the input whose dropped members are at least a window older than
    the returned time, and when the input held at most `maxReq` entries the
    output holds strictly fewer than `maxReq`. -/
theorem rlPrune_spec (maxReq : Nat) (windowMs : Int) (ts : List Int) (t1 : Int)
    (hmax : 1 ≤ maxReq) :
    t1 ≤ (rlPrune maxReq windowMs ts t1).1 ∧
    (∃ rem, ts = rem ++ (rlPrune maxReq windowMs ts t1).2 ∧
      ∀ t ∈ rem, t + windowMs ≤ (rlPrune maxReq windowMs ts t1).1) ∧
    (ts.length ≤ maxReq → (rlPrune maxReq windowMs ts t1).2.length + 1 ≤ maxReq) := by
  obtain ⟨rem1, hdec1, hold1⟩ := dropOld_decomp windowMs t1 ts
  by_cases hfull : maxReq ≤ (dropOld windowMs t1 ts).length
  · cases hcase : dropOld windowMs t1 ts with
    | nil =>
      rw [hcase] at hfull
      simp only [List.length_nil] at hfull
      exact absurd hfull (by omega)
    | cons oldest l1 =>
      rw [hcase] at hfull hdec1
      unfold rlPrune
      rw [hcase]
      rw [if_pos hfull]
      simp only [List.head?_cons]
      have ht1t2 : t1 ≤ (if 0 < windowMs - (t1 - oldest) + 50
          then t1 + (windowMs - (t1 - oldest) + 50) else t1) := by
        split_ifs <;> omega
      have htold : oldest + windowMs ≤ (if 0 < windowMs - (t1 - oldest) + 50
          then t1 + (windowMs - (t1 - oldest) + 50) else t1) := by
        split_ifs <;> omega
      obtain ⟨rem2, hdec2, hold2⟩ := dropOld_decomp windowMs
        (if 0 < windowMs - (t1 - oldest) + 50
          then t1 + (windowMs - (t1 - oldest) + 50) else t1) (oldest :: l1)
      refine ⟨ht1t2, ⟨rem1 ++ rem2, ?_, ?_⟩, ?_⟩
      · calc ts = rem1 ++ (oldest :: l1) := hdec1
          _ = rem1 ++ (rem2 ++ dropOld windowMs
                (if 0 < windowMs - (t1 - oldest) + 50
                  then t1 + (windowMs - (t1 - oldest) + 50) else t1)
                (oldest :: l1)) := by rw [← hdec2]
          _ = (rem1 ++ rem2) ++ dropOld windowMs
                (if 0 < windowMs - (t1 - oldest) + 50
                  then t1 + (windowMs - (t1 - oldest) + 50) else t1)
                (oldest :: l1) := by rw [List.append_assoc]
      · intro t ht
        rcases List.mem_append.mp ht with h | h
        · have := hold1 t h; omega
        · have := hold2 t h; omega
      · intro hlenle
        have hdrop : dropOld windowMs
            (if 0 < windowMs - (t1 - oldest) + 50
              then t1 + (windowMs - (t1 - oldest) + 50) else t1) (oldest :: l1) =
            dropOld windowMs
            (if 0 < windowMs - (t1 - oldest) + 50
              then t1 + (windowMs - (t1 - oldest) + 50) else t1) l1 := by
          rw [dropOld]
          rw [if_pos (by omega)]
        rw [hdrop]
        have h1 : (dropOld windowMs
            (if 0 < windowMs - (t1 - oldest) + 50
              then t1 + (windowMs - (t1 - oldest) + 50) else t1) l1).length ≤
            l1.length := dropOld_length _ _ _
        have h2 : (oldest :: l1).length ≤ ts.length := by
          rw [← hcase]
          exact dropOld_length _ _ _
        simp only [List.length_cons] at h2
        omega
  · unfold rlPrune
    rw [if_neg hfull]
    dsimp only
    refine ⟨le_refl t1, ⟨rem1, hdec1, fun t ht => by have := hold1 t ht; omega⟩, ?_⟩
    intro _
    omega

/-- Smoothing only moves the admission time forward. -/
theorem rlSmooth_ge (minDelay t2 : Int) (ts2 : List Int) :
    t2 ≤ rlSmooth minDelay t2 ts2 := by
  unfold rlSmooth
  cases ts2.getLast? with
  | none => exact le_refl t2
  | some last =>
    simp only
    split_ifs with h <;> omega

/-- One `rateLimit()` call: `retryAfterUntil` is preserved, the admission time
    is at least the arrival time and at least `retryAfterUntil`, the new list is
    the kept suffix plus the admission, every dropped entry is a full window
    older than the admission, and a list within capacity keeps at most
    `maxReq - 1` old entries. -/
theorem rateLimitStep_spec (s : RLState) (now : Int) :
    ∃ rem keep,
      (rateLimitStep 40 10000 s now).1 =
        ⟨keep ++ [(rateLimitStep 40 10000 s now).2], s.rau⟩ ∧
      s.ts = rem ++ keep ∧
      s.rau ≤ (rateLimitStep 40 10000 s now).2 ∧
      now ≤ (rateLimitStep 40 10000 s now).2 ∧
      (∀ t ∈ rem, t + 10000 ≤ (rateLimitStep 40 10000 s now).2) ∧
      (s.ts.length ≤ 40 → keep.length + 1 ≤ 40) := by
  obtain ⟨ht1, ⟨rem, hdec, hold⟩, hlen⟩ :=
    rlPrune_spec 40 10000 s.ts (max s.rau now) (by omega)
  have hsm : (rlPrune 40 10000 s.ts (max s.rau now)).1 ≤
      rlSmooth ((10000 : Int) / (40 : Nat)) (rlPrune 40 10000 s.ts (max s.rau now)).1
        (rlPrune 40 10000 s.ts (max s.rau now)).2 :=
    rlSmooth_ge _ _ _
  refine ⟨rem, (rlPrune 40 10000 s.ts (max s.rau now)).2, ?_, hdec, ?_, ?_, ?_, hlen⟩
  · rfl
  · have : s.rau ≤ max s.rau now := le_max_left _ _
    calc s.rau ≤ (rlPrune 40 10000 s.ts (max s.rau now)).1 := le_trans this ht1
      _ ≤ _ := hsm
  · have : now ≤ max s.rau now := le_max_right _ _
    calc now ≤ (rlPrune 40 10000 s.ts (max s.rau now)).1 := le_trans this ht1
      _ ≤ _ := hsm
  · intro t ht
    have := hold t ht
    calc t + 10000 ≤ (rlPrune 40 10000 s.ts (max s.rau now)).1 := this
      _ ≤ _ := hsm

/-- Main induction: with the limiter state consistent with the admission
    history, every rolling 10-second window over past and future admissions
    holds at most 40 admissions. -/
theorem runRL_window_aux :
    ∀ (gaps : List Int) (s : RLState) (hist : List Int) (tprev : Int),
      (∀ g ∈ gaps, 0 ≤ g) →
      s.ts.length ≤ 40 →
      (∃ pref, hist = pref ++ s.ts ∧ ∀ t ∈ pref, t + 10000 ≤ tprev) →
      (∀ t ∈ hist, t ≤ tprev) →
      (∀ a, windowCount 10000 a hist ≤ 40) →
      ∀ a, windowCount 10000 a (hist ++ runRL 40 10000 s tprev gaps) ≤ 40 := by
  intro gaps
  induction gaps with
  | nil =>
    intro s hist tprev _ _ _ _ hWin a
    simpa [runRL] using hWin a
  | cons g gs ih =>
    intro s hist tprev hg hcard hprefix hle hWin
    obtain ⟨pref, hpref, hprefold⟩ := hprefix
    have hg0 : 0 ≤ g := hg g (List.mem_cons_self g gs)
    obtain ⟨rem, keep, hstate, hts, hrau, hnow, hremold, hkeep⟩ :=
      rateLimitStep_spec s (tprev + g)
    have htprev : tprev ≤ (rateLimitStep 40 10000 s (tprev + g)).2 := by omega
    have hWin' : ∀ a, windowCount 10000 a
        (hist ++ [(rateLimitStep 40 10000 s (tprev + g)).2]) ≤ 40 := by
      intro a
      set tau := (rateLimitStep 40 10000 s (tprev + g)).2 with htau
      unfold windowCount
      rw [List.countP_append]
      by_cases hin : a ≤ tau ∧ tau < a + 10000
      · have h1 : hist.countP (fun t => decide (a ≤ t ∧ t < a + 10000)) ≤ 39 := by
          have hmono : hist.countP (fun t => decide (a ≤ t ∧ t < a + 10000)) ≤
              hist.countP (fun t => decide (tau - 10000 < t ∧ t ≤ tau)) := by
            apply List.countP_mono_left
            intro t ht hdec
            simp only [decide_eq_true_eq] at hdec ⊢
            have := hle t ht
            omega
          have hrw : hist.countP (fun t => decide (tau - 10000 < t ∧ t ≤ tau)) =
              pref.countP (fun t => decide (tau - 10000 < t ∧ t ≤ tau)) +
              (rem.countP (fun t => decide (tau - 10000 < t ∧ t ≤ tau)) +
               keep.countP (fun t => decide (tau - 10000 < t ∧ t ≤ tau))) := by
            rw [hpref, hts, List.countP_append, List.countP_append]
          have hp0 : pref.countP (fun t => decide (tau - 10000 < t ∧ t ≤ tau)) = 0 := by
            rw [List.countP_eq_zero]
            intro t ht
            simp only [decide_eq_true_eq, not_and, not_le]
            intro hgt
            have := hprefold t ht
            omega
          have hr0 : rem.countP (fun t => decide (tau - 10000 < t ∧ t ≤ tau)) = 0 := by
            rw [List.countP_eq_zero]
            intro t ht
            simp only [decide_eq_true_eq, not_and, not_le]
            intro hgt
            have := hremold t ht
            omega
          have hk : keep.countP (fun t => decide (tau - 10000 < t ∧ t ≤ tau)) ≤
              keep.length := List.countP_le_length _
          have hkb : keep.length + 1 ≤ 40 := hkeep hcard
          omega
        have h2 : ([tau].countP (fun t => decide (a ≤ t ∧ t < a + 10000))) ≤ 1 := by
          have := List.countP_le_length
            (l := [tau]) (p := fun t => decide (a ≤ t ∧ t < a + 10000))
          simpa using this
        omega
      · have h2 : ([tau].countP (fun t => decide (a ≤ t ∧ t < a + 10000))) = 0 := by
          rw [List.countP_eq_zero]
          intro t ht
          simp only [List.mem_singleton] at ht
          subst ht
          simp only [decide_eq_true_eq]
          exact hin
        have := hWin a
        unfold windowCount at this
        omega
    have hstep : runRL 40 10000 s tprev (g :: gs) =
        (rateLimitStep 40 10000 s (tprev + g)).2 ::
          runRL 40 10000 (rateLimitStep 40 10000 s (tprev + g)).1
            (rateLimitStep 40 10000 s (tprev + g)).2 gs := rfl
    rw [hstep]
    intro a
    have hassoc : hist ++ ((rateLimitStep 40 10000 s (tprev + g)).2 ::
        runRL 40 10000 (rateLimitStep 40 10000 s (tprev + g)).1
          (rateLimitStep 40 10000 s (tprev + g)).2 gs) =
        (hist ++ [(rateLimitStep 40 10000 s (tprev + g)).2]) ++
          runRL 40 10000 (rateLimitStep 40 10000 s (tprev + g)).1
            (rateLimitStep 40 10000 s (tprev + g)).2 gs := by
      simp
    rw [hassoc]
    apply ih (rateLimitStep 40 10000 s (tprev + g)).1
      (hist ++ [(rateLimitStep 40 10000 s (tprev + g)).2])
      (rateLimitStep 40 10000 s (tprev + g)).2
      (fun g' hg' => hg g' (List.mem_cons_of_mem g hg'))
    · rw [hstate]
      simp only [List.length_append, List.length_singleton]
      have := hkeep hcard
      omega
    · refine ⟨pref ++ rem, ?_, ?_⟩
      · rw [hstate]
        simp only
        rw [hpref, hts]
        simp [List.append_assoc]
      · intro t ht
        rcases List.mem_append.mp ht with h | h
        · have := hprefold t h
          omega
        · exact hremold t h
    · intro t ht
      rcases List.mem_append.mp ht with h | h
      · have := hle t h
        omega
      · simp only [List.mem_singleton] at h
        omega
    · exact hWin'

/-- C7: in the deterministic timing model, (1) any sequence of sequential
    `rateLimit()` calls against a fresh limiter with the default configuration
    admits at most 40 requests inside every rolling 10-second window; (2) no
    call is admitted before the recorded `retryAfterUntil` (nor before its
    arrival); and (3) the call-site gate skips the limiter entirely for custom
    endpoints. -/
theorem C7_rate_limiter_obedience (gaps : List Int) (rau0 t0 : Int)
    (hg : ∀ g ∈ gaps, 0 ≤ g) :
    (∀ a : Int, windowCount 10000 a (runRL 40 10000 ⟨[], rau0⟩ t0 gaps) ≤ 40) ∧
    (∀ (s : RLState) (now : Int),
        s.rau ≤ (rateLimitStep 40 10000 s now).2 ∧
        now ≤ (rateLimitStep 40 10000 s now).2 ∧
        (rateLimitStep 40 10000 s now).1.rau = s.rau) ∧
    (∀ (url : String) (enabled : Bool) (s : RLState) (now : Int),
        isCustomRpcEndpoint url = true → gatedRateLimit url enabled s now = (s, now)) := by
  refine ⟨?_, ?_, ?_⟩
  · intro a
    have h := runRL_window_aux gaps ⟨[], rau0⟩ [] t0 hg (by simp)
      ⟨[], by simp, by simp⟩ (by simp) (by intro a'; simp [windowCount]) a
    simpa using h
  · intro s now
    obtain ⟨rem, keep, hstate, _, h1, h2, _, _⟩ := rateLimitStep_spec s now
    refine ⟨h1, h2, ?_⟩
    rw [hstate]
  · intro url enabled s now hc
    simp [gatedRateLimit, hc]

/-- Witness for C7 at the concrete call sequence with gaps `[0, 0, 0]`. -/
theorem C7_rate_limiter_obedience_witness :
    (∀ g ∈ ([0, 0, 0] : List Int), 0 ≤ g) ∧
    ((∀ a : Int, windowCount 10000 a (runRL 40 10000 ⟨[], 5⟩ 100 [0, 0, 0]) ≤ 40) ∧
      (∀ (s : RLState) (now : Int),
          s.rau ≤ (rateLimitStep 40 10000 s now).2 ∧
          now ≤ (rateLimitStep 40 10000 s now).2 ∧
          (rateLimitStep 40 10000 s now).1.rau = s.rau) ∧
      (∀ (url : String) (enabled : Bool) (s : RLState) (now : Int),
          isCustomRpcEndpoint url = true → gatedRateLimit url enabled s now = (s, now))) :=
  ⟨by decide, C7_rate_limiter_obedience [0, 0, 0] 5 100 (by decide)⟩

end SolanaRetro
